import Mathlib

/-!
Verification of the Spond MCP service layer.

A shallow embedding, in Lean 4, of the caching + entity-resolution service
layer of the `spond-no-match-mcp` repository (`src/server.py`), together with
theorems settling the specification claims about it.

Modelling conventions:
* Python strings become `String`; Python's `str.lower()` becomes a per-character
  `Char.toLower` map to a `List Char` (the code only ever compares lowered
  strings or tests substring containment on them).
* Python's substring test `a in b` becomes the executable `containsSub`.
* Python dicts used as ordered insert/overwrite maps become association lists
  with `dictInsert` (overwrite keeps the original position, as CPython does).
* `time.monotonic()` instants and TTLs become `Int`; each service call is
  modelled at a single monotonic instant `now`.
* The remote Spond client becomes an explicit `Remote` environment; the
  group-list call may fail (`Except`), mirroring remote faults that Python
  surfaces as exceptions.  Counters of remote calls and a log of submitted
  responses are carried in the service state as instrumentation.
* `async` methods that read/mutate `self` become functions from state to
  (result, state).
-/

namespace Spond

/-- Lower-case a string character by character (embedding of `str.lower()`). -/
def lower (s : String) : List Char := s.toList.map Char.toLower

/-- Executable substring containment on character lists: embedding of
Python's `needle in hay` for strings. -/
def containsSub (needle : List Char) : List Char → Bool
  | [] => needle.isEmpty
  | c :: rest => needle.isPrefixOf (c :: rest) || containsSub needle rest

/-- Embedding of `fuzzy_match_group` (src/server.py:135-140): bidirectional
case-insensitive substring containment against any configured name. -/
def fuzzy_match_group (group_name : String) (configured_names : List String) : Bool :=
  let name_lower := lower group_name
  configured_names.any fun configured =>
    containsSub (lower configured) name_lower || containsSub name_lower (lower configured)

/-- A member of a remote Spond group (`firstName` missing in the raw dict is
read as `""` by the code, so it is modelled as a plain string). -/
structure Member where
  id : String
  firstName : String
deriving DecidableEq, Repr

/-- A remote Spond group. -/
structure Group where
  id : String
  name : String
  members : List Member
deriving DecidableEq, Repr

/-- A configured family member (`kids_config` entry): display name plus
configured group-name strings. -/
structure Kid where
  name : String
  groups : List String
deriving DecidableEq, Repr

/-- A remote Spond event; `e.get("id", "")` / `e.get("startTimestamp", "")`
are modelled as plain string fields. -/
structure Event where
  id : String
  startTimestamp : String
deriving DecidableEq, Repr

/-- Embedding of `SpondService.find_group_id` (src/server.py:82-87): first
group in list order matching the bidirectional case-insensitive substring
rule, returning its id. -/
def find_group_id (group_name : String) (groups : List Group) : Option String :=
  let name_lower := lower group_name
  (groups.find? fun g =>
    containsSub name_lower (lower g.name) || containsSub (lower g.name) name_lower).map
    Group.id

/-- Embedding of `SpondService.get_kid_group_names` (src/server.py:89-93). -/
def get_kid_group_names (kids : List Kid) (kid_name : String) : List String :=
  match kids.find? fun kid => decide (lower kid.name = lower kid_name) with
  | some kid => kid.groups
  | none => []

/-- Values stored in the service's single `self._cache` dict: either a group
list (key `"groups"`) or an event list (keys `"events:{days}:{gid}"`). -/
inductive CacheVal where
  | groups : List Group → CacheVal
  | events : List Event → CacheVal
deriving DecidableEq, Repr

/-- The mutable state of a `SpondService` instance: the TTL cache, the two
lazily built maps, plus instrumentation (counters of remote calls and the log
of submitted responses) used to state claims about remote traffic. -/
structure ServiceState where
  cache : String → Option (CacheVal × Int)
  familyMembers : Option (List (String × String))
  groupMap : Option (List (String × String))
  groupFetches : Nat
  eventFetches : Nat
  responseCalls : List (String × String × List (String × String))

/-- A fresh service (`SpondService.__init__`): empty cache, both derived maps
unbuilt, no remote traffic yet. -/
def initState : ServiceState :=
  { cache := fun _ => none
    familyMembers := none
    groupMap := none
    groupFetches := 0
    eventFetches := 0
    responseCalls := [] }

/-- The remote Spond client (`self._client`): the group-list call may fail
(remote fault as a Python exception), the event query is a function of the
day window and optional group filter. -/
structure Remote where
  groupsResult : Except String (List Group)
  events : Int → Option String → List Event

def GROUPS_TTL : Int := 3600

def EVENTS_TTL : Int := 300

/-- Embedding of `SpondService._get_cached` (src/server.py:29-34): pure read,
the stored value is returned only while strictly fresher than `ttl`. -/
def getCached (st : ServiceState) (now : Int) (key : String) (ttl : Int) :
    Option CacheVal :=
  match st.cache key with
  | some (data, ts) => if now - ts < ttl then some data else none
  | none => none

/-- `_get_cached` as a state transformer: the method performs no mutation, so
its embedding returns the state unchanged alongside the read. -/
def getCachedM (st : ServiceState) (now : Int) (key : String) (ttl : Int) :
    Option CacheVal × ServiceState :=
  (getCached st now key ttl, st)

/-- Embedding of `SpondService._set_cached` (src/server.py:36-37):
unconditional overwrite stamped with the current monotonic instant. -/
def setCached (st : ServiceState) (now : Int) (key : String) (data : CacheVal) :
    ServiceState :=
  { st with cache := fun k => if k = key then some (data, now) else st.cache k }

/-- Embedding of `SpondService.clear_cache` (src/server.py:39-42): drops every
cache entry and resets both lazily built maps to unbuilt. -/
def clear_cache (st : ServiceState) : ServiceState :=
  { st with cache := fun _ => none, familyMembers := none, groupMap := none }

/-- Embedding of `SpondService.get_groups` (src/server.py:44-50): cached group
list with the long TTL, falling through to the remote client on a miss. -/
def get_groups (remote : Remote) (now : Int) (st : ServiceState) :
    Except String (List Group) × ServiceState :=
  match getCached st now "groups" GROUPS_TTL with
  | some (.groups gs) => (.ok gs, st)
  | _ =>
    match remote.groupsResult with
    | .error e => (.error e, st)
    | .ok gs =>
        (.ok gs,
          setCached { st with groupFetches := st.groupFetches + 1 } now "groups"
            (.groups gs))

/-- Embedding of `SpondService.get_group_map` (src/server.py:52-57): lazily
built id → name index over the fetched group list. -/
def get_group_map (remote : Remote) (now : Int) (st : ServiceState) :
    Except String (List (String × String)) × ServiceState :=
  match st.groupMap with
  | some m => (.ok m, st)
  | none =>
    match get_groups remote now st with
    | (.error e, st') => (.error e, st')
    | (.ok gs, st') =>
        let m := gs.map fun g => (g.id, g.name)
        (.ok m, { st' with groupMap := some m })

/-- Insert/overwrite into an association list with CPython dict semantics:
an existing key keeps its position and gets the new value, a new key is
appended. -/
def dictInsert (l : List (String × String)) (k v : String) :
    List (String × String) :=
  if l.any fun p => p.1 = k then
    l.map fun p => if p.1 = k then (k, v) else p
  else
    l ++ [(k, v)]

/-- Inner loop of `resolve_family_members` (src/server.py:71-77) for one kid:
for each group whose name fuzzy-matches the kid's configured group names, the
first member whose first name case-insensitively equals the kid's name is
recorded (the `break` after recording is the `find?`). -/
def processKid (kid : Kid) : List Group → List (String × String) →
    List (String × String)
  | [], fam => fam
  | g :: gs, fam =>
      processKid kid gs
        (if fuzzy_match_group g.name kid.groups then
          match g.members.find? fun m => decide (lower m.firstName = lower kid.name) with
          | some m => dictInsert fam m.id kid.name
          | none => fam
        else fam)

/-- Outer loop of `resolve_family_members` (src/server.py:67-77). -/
def buildFamilyAux (groups : List Group) : List Kid → List (String × String) →
    List (String × String)
  | [], fam => fam
  | kid :: rest, fam => buildFamilyAux groups rest (processKid kid groups fam)

/-- The family map built by `resolve_family_members` from a fetched group
list (src/server.py:65-77). -/
def buildFamily (kids : List Kid) (groups : List Group) :
    List (String × String) :=
  buildFamilyAux groups kids []

/-- Embedding of `SpondService.resolve_family_members` (src/server.py:59-80):
returns the cached map if built, otherwise fetches groups, builds the map and
stores it. -/
def resolve_family_members (kids : List Kid) (remote : Remote) (now : Int)
    (st : ServiceState) :
    Except String (List (String × String)) × ServiceState :=
  match st.familyMembers with
  | some fam => (.ok fam, st)
  | none =>
    match get_groups remote now st with
    | (.error e, st') => (.error e, st')
    | (.ok gs, st') =>
        let fam := buildFamily kids gs
        (.ok fam, { st' with familyMembers := some fam })

/-- The event-query cache key (src/server.py:98): Python's
`f"events:{days}:{group_id or 'all'}"`, where `or` replaces both `None` and
the empty string by `'all'`. -/
def cacheKey (days : Int) (group_id : Option String) : String :=
  "events:" ++ toString days ++ ":" ++
    match group_id with
    | some g => if g = "" then "all" else g
    | none => "all"

/-- Embedding of `SpondService.get_events` (src/server.py:95-110): cached
event query with the short TTL, keyed by day window and group filter. -/
def get_events (remote : Remote) (now : Int) (days : Int)
    (group_id : Option String) (st : ServiceState) :
    List Event × ServiceState :=
  let key := cacheKey days group_id
  match getCached st now key EVENTS_TTL with
  | some (.events es) => (es, st)
  | _ =>
    let es := remote.events days group_id
    (es, setCached { st with eventFetches := st.eventFetches + 1 } now key
      (.events es))

/-- The payload built by `SpondService.change_response` (src/server.py:118-120). -/
def change_response_payload (accept : Bool) (decline_message : String) :
    List (String × String) :=
  let payload := [("accepted", if accept then "true" else "false")]
  if !accept && !(decline_message = "") then
    payload ++ [("declineMessage", decline_message)]
  else payload

/-- Embedding of `SpondService.change_response` (src/server.py:115-121): a
fire-and-forget remote call, recorded in the instrumentation log; it touches
neither the cache nor the derived maps. -/
def change_response (st : ServiceState) (event_id member_id : String)
    (accept : Bool) (decline_message : String) : ServiceState :=
  { st with
    responseCalls :=
      st.responseCalls ++
        [(event_id, member_id, change_response_payload accept decline_message)] }

/-- Embedding of `SpondService.find_member_id` (src/server.py:123-128):
case-insensitive lookup by value in the family map, first entry in iteration
order; absence is `none`. -/
def find_member_id (kids : List Kid) (remote : Remote) (now : Int)
    (st : ServiceState) (kid_name : String) :
    Except String (Option String) × ServiceState :=
  match resolve_family_members kids remote now st with
  | (.error e, st') => (.error e, st')
  | (.ok fam, st') =>
      (.ok ((fam.find? fun p => decide (lower p.2 = lower kid_name)).map Prod.fst),
        st')

/-- Ordering of events by their raw start-timestamp strings — the comparison
Python's `sorted(..., key=lambda e: e.get("startTimestamp", ""))` uses. -/
def evLe (a b : Event) : Prop := a.startTimestamp ≤ b.startTimestamp

instance : DecidableRel evLe := fun a b =>
  inferInstanceAs (Decidable (a.startTimestamp ≤ b.startTimestamp))

instance : IsTotal Event evLe := ⟨fun a b => le_total a.startTimestamp b.startTimestamp⟩

instance : IsTrans Event evLe := ⟨fun _ _ _ h h' => le_trans h h'⟩

/-- One batch of the deduplicating accumulation in
`handle_get_upcoming_events` (src/server.py:388-392): events whose id was
already seen are dropped, new ids are recorded and the event appended. -/
def dedupStep : List String → List Event → List Event → List String × List Event
  | seen, acc, [] => (seen, acc)
  | seen, acc, e :: es =>
      if e.id ∈ seen then dedupStep seen acc es
      else dedupStep (e.id :: seen) (acc ++ [e]) es

/-- The kid-path loop of `handle_get_upcoming_events` (src/server.py:384-392):
resolve each configured group name, skip unresolved (or falsy) ids, fetch that
group's events through the cache and accumulate deduplicated by event id. -/
def aggLoop (remote : Remote) (now days : Int) (groups : List Group) :
    List String → List String → List Event → ServiceState →
    List String × List Event × ServiceState
  | [], seen, acc, st => (seen, acc, st)
  | gname :: rest, seen, acc, st =>
      match find_group_id gname groups with
      | some gid =>
          if gid = "" then aggLoop remote now days groups rest seen acc st
          else
            let (es, st') := get_events remote now days (some gid) st
            let (seen', acc') := dedupStep seen acc es
            aggLoop remote now days groups rest seen' acc' st'
      | none => aggLoop remote now days groups rest seen acc st

/-- The kid path of `handle_get_upcoming_events` (src/server.py:380-393):
cross-group accumulation followed by the sort by start timestamp. -/
def aggregateKidEvents (remote : Remote) (now days : Int)
    (kid_group_names : List String) (groups : List Group) (st : ServiceState) :
    List Event × ServiceState :=
  let (_, all_events, st') := aggLoop remote now days groups kid_group_names [] [] st
  (List.insertionSort evLe all_events, st')

/-- The shared tail of `handle_get_upcoming_events` (src/server.py:403-420):
empty result message, family resolution and rendering.  The per-event
formatter (`format_event_summary`, display-only and out of the service core)
is a parameter. -/
def renderEvents (fmt : Event → List (String × String) → String)
    (kids : List Kid) (remote : Remote) (now days : Int)
    (group_name kid_name : String) (events : List Event) (st : ServiceState) :
    Except String String × ServiceState :=
  if events = [] then
    let scope :=
      if kid_name ≠ "" then " for " ++ kid_name
      else if group_name ≠ "" then " i " ++ group_name
      else ""
    (.ok ("Ingen aktiviteter de neste " ++ toString days ++ " dagene" ++ scope ++ "."),
      st)
  else
    match resolve_family_members kids remote now st with
    | (.error e, st') => (.error e, st')
    | (.ok family, st') =>
        let body :=
          (List.insertionSort evLe events).flatMap fun e => [fmt e family, ""]
        let header :=
          "Aktiviteter neste " ++ toString days ++ " dager" ++
            (if kid_name ≠ "" then " for " ++ kid_name
             else if group_name ≠ "" then " i " ++ group_name
             else "") ++
            " (" ++ toString events.length ++ " stk):"
        (.ok (header ++ "\n\n" ++ (String.intercalate "\n" body).trim), st')

/-- Embedding of `handle_get_upcoming_events` (src/server.py:371-420).  Empty
strings for `group_name` / `kid_name` are the Python defaults (falsy = no
filter); a resolved group id that is falsy (`""`) also fails the `if gid:` /
`if not group_id:` truthiness checks, exactly as in the source. -/
def handle_get_upcoming_events (fmt : Event → List (String × String) → String)
    (kids : List Kid) (remote : Remote) (now : Int) (days : Int)
    (group_name kid_name : String) (st : ServiceState) :
    Except String String × ServiceState :=
  if kid_name ≠ "" then
    let kid_group_names := get_kid_group_names kids kid_name
    if kid_group_names = [] then (.ok ("Ukjent barn: " ++ kid_name), st)
    else
      match get_groups remote now st with
      | (.error e, st') => (.error e, st')
      | (.ok groups, st') =>
          let (events, st'') :=
            aggregateKidEvents remote now days kid_group_names groups st'
          renderEvents fmt kids remote now days group_name kid_name events st''
  else if group_name ≠ "" then
    match get_groups remote now st with
    | (.error e, st') => (.error e, st')
    | (.ok groups, st') =>
        match find_group_id group_name groups with
        | none =>
            (.ok ("Fant ingen gruppe som matcher '" ++ group_name ++ "'"), st')
        | some gid =>
            if gid = "" then
              (.ok ("Fant ingen gruppe som matcher '" ++ group_name ++ "'"), st')
            else
              let (events, st'') := get_events remote now days (some gid) st'
              renderEvents fmt kids remote now days group_name kid_name events st''
  else
    let (events, st') := get_events remote now days none st
    renderEvents fmt kids remote now days group_name kid_name events st'

/-- Embedding of `handle_respond_to_event` (src/server.py:486-499): a kid that
resolves to no member id (or to a falsy one, per `if not member_id:`) yields a
descriptive not-found string; otherwise the response is submitted. -/
def handle_respond_to_event (kids : List Kid) (remote : Remote) (now : Int)
    (event_id kid_name : String) (accept : Bool) (decline_message : String)
    (st : ServiceState) : Except String String × ServiceState :=
  match find_member_id kids remote now st kid_name with
  | (.error e, st') => (.error e, st')
  | (.ok mid?, st') =>
      match mid? with
      | none => (.ok ("Fant ikke " ++ kid_name ++ " i noen Spond-gruppe."), st')
      | some mid =>
          if mid = "" then
            (.ok ("Fant ikke " ++ kid_name ++ " i noen Spond-gruppe."), st')
          else
            (.ok ("Aktivitet " ++ (if accept then "akseptert" else "avslått") ++
                " for " ++ kid_name ++ "."),
              change_response st' event_id mid accept decline_message)

/-- Spec-side invariant of the Family Resolution Map (spec §3): the pair
`(m, v)` may only appear if some configured family member named `v` has a
fuzzy-matched group containing a member with id `m` whose first name
case-insensitively equals `v`. -/
def FamilyInvariant (kids : List Kid) (groups : List Group)
    (p : String × String) : Prop :=
  ∃ kid ∈ kids, kid.name = p.2 ∧
    ∃ g ∈ groups, fuzzy_match_group g.name kid.groups = true ∧
      ∃ mem ∈ g.members, mem.id = p.1 ∧ lower mem.firstName = lower kid.name

/-- The normalization Python's `group_id or 'all'` applies to the group-id
component of the event cache key. -/
def normGid : Option String → String
  | some g => if g = "" then "all" else g
  | none => "all"

/-- Spec-side deduplication by event identifier, first occurrence winning,
relative to a set of already-seen identifiers (spec §4.4). -/
def dedupBy (seen : List String) : List Event → List Event
  | [] => []
  | e :: es => if e.id ∈ seen then dedupBy seen es else e :: dedupBy (e.id :: seen) es

/-- The identifiers seen after scanning a batch of events. -/
def seenAfter (seen : List String) : List Event → List String
  | [] => seen
  | e :: es => if e.id ∈ seen then seenAfter seen es else seenAfter (e.id :: seen) es

/-- Spec-side cross-group union (spec §4.4): resolve each configured name via
`find_group_id`, silently skip unresolvable (or falsy) ids, concatenate the
per-group events in configured order, deduplicate by event id with the first
occurrence winning, and sort ascending by the start-timestamp strings. -/
def specKidUnion (remote : Remote) (days : Int) (kid_group_names : List String)
    (groups : List Group) : List Event :=
  List.insertionSort evLe (dedupBy []
    (kid_group_names.flatMap fun gname =>
      match find_group_id gname groups with
      | some gid => if gid = "" then [] else remote.events days (some gid)
      | none => []))

/-- Cache coherence for one day window: every event entry for a non-falsy
group id either is absent or holds exactly the remote answer, stamped now. -/
def EventCacheCoherent (remote : Remote) (now days : Int)
    (st : ServiceState) : Prop :=
  ∀ gid : String, gid ≠ "" →
    st.cache (cacheKey days (some gid)) = none ∨
    st.cache (cacheKey days (some gid)) =
      some (.events (remote.events days (some gid)), now)

/-- `containsSub` decides the contiguous-sublist (infix) relation — the
relation Python's substring test denotes. -/
theorem containsSub_infix_iff (needle hay : List Char) :
    containsSub needle hay = true ↔ needle <:+: hay := by
  induction hay with
  | nil =>
    simp [containsSub, List.isEmpty_iff]
  | cons c rest ih =>
    simp only [containsSub, Bool.or_eq_true, List.isPrefixOf_iff_prefix, ih,
      List.infix_cons_iff]

theorem mem_dictInsert {l : List (String × String)} {k v : String}
    {p : String × String} (hp : p ∈ dictInsert l k v) : p ∈ l ∨ p = (k, v) := by
  unfold dictInsert at hp
  split at hp
  · rcases List.mem_map.mp hp with ⟨q, hq, hfq⟩
    by_cases hk : q.1 = k
    · right; simp [hk] at hfq; exact hfq.symm
    · left; rw [if_neg hk] at hfq; exact hfq ▸ hq
  · rcases List.mem_append.mp hp with h | h
    · exact Or.inl h
    · right; simpa using h

theorem mem_processKid {kid : Kid} {gs : List Group}
    {fam : List (String × String)} {p : String × String}
    (hp : p ∈ processKid kid gs fam) :
    p ∈ fam ∨ (p.2 = kid.name ∧
      ∃ g ∈ gs, fuzzy_match_group g.name kid.groups = true ∧
        ∃ mem ∈ g.members, mem.id = p.1 ∧ lower mem.firstName = lower kid.name) := by
  induction gs generalizing fam with
  | nil => exact Or.inl hp
  | cons g rest ih =>
    rcases ih hp with hfam | ⟨hname, g', hg', hrest⟩
    · cases hf : fuzzy_match_group g.name kid.groups with
      | false =>
        simp only [processKid, hf, Bool.false_eq_true, if_false] at hfam
        exact Or.inl hfam
      | true =>
        simp only [processKid, hf, if_true] at hfam
        cases hfind : g.members.find? fun m =>
            decide (lower m.firstName = lower kid.name) with
        | none => exact Or.inl (by rwa [hfind] at hfam)
        | some m =>
          rw [hfind] at hfam
          rcases mem_dictInsert hfam with h | h
          · exact Or.inl h
          · have hpm := List.find?_some hfind
            simp only [decide_eq_true_eq] at hpm
            exact Or.inr ⟨by simp [h], g, List.mem_cons_self _ _, hf,
              m, List.mem_of_find?_eq_some hfind, by simp [h], hpm⟩
    · exact Or.inr ⟨hname, g', List.mem_cons_of_mem _ hg', hrest⟩

theorem mem_buildFamilyAux {groups : List Group} {kids : List Kid}
    {fam : List (String × String)} {p : String × String}
    (hp : p ∈ buildFamilyAux groups kids fam) :
    p ∈ fam ∨ FamilyInvariant kids groups p := by
  induction kids generalizing fam with
  | nil => exact Or.inl hp
  | cons kid rest ih =>
    rcases ih hp with hfam | ⟨kid', hkid', hrest⟩
    · rcases mem_processKid hfam with h | ⟨hname, hex⟩
      · exact Or.inl h
      · exact Or.inr ⟨kid, List.mem_cons_self _ _, hname.symm, hex⟩
    · exact Or.inr ⟨kid', List.mem_cons_of_mem _ hkid', hrest⟩

/-- C1: every entry `(m, v)` of the map built by `resolve_family_members`
names a member (id `m`) of some group fuzzy-matching the configured group
names of a configured family member named `v`, with the member's first name
case-insensitively equal to `v` — so a member matching by first name inside a
non-matching group is never included — and zero configured family members
yield the empty map, without error when the group fetch succeeds. -/
theorem resolve_family_members_invariant :
    (∀ (kids : List Kid) (groups : List Group) (m v : String),
      (m, v) ∈ buildFamily kids groups →
        ∃ kid ∈ kids, kid.name = v ∧
          ∃ g ∈ groups, fuzzy_match_group g.name kid.groups = true ∧
            ∃ mem ∈ g.members, mem.id = m ∧ lower mem.firstName = lower v)
    ∧ (∀ groups : List Group, buildFamily [] groups = [])
    ∧ (∀ (remote : Remote) (now : Int) (st : ServiceState) (gs : List Group),
        st.familyMembers = none → (get_groups remote now st).1 = .ok gs →
        (resolve_family_members [] remote now st).1 = .ok []) := by
  refine ⟨fun kids groups m v hp => ?_, fun groups => rfl,
    fun remote now st gs hfam hok => ?_⟩
  · rcases mem_buildFamilyAux hp with h | ⟨kid, hkid, hname, hex⟩
    · cases h
    · exact ⟨kid, hkid, hname, by rwa [hname] at hex⟩
  · unfold resolve_family_members
    rw [hfam]
    rcases hgg : get_groups remote now st with ⟨r, st'⟩
    rw [hgg] at hok
    simp at hok
    subst hok
    rfl

/-- Witness for C1: a concrete configuration where "Oliver" is found in the
matching group, and the zero-kid configuration resolves to the empty map. -/
theorem resolve_family_members_invariant_witness :
    (∃ kid ∈ [Kid.mk "Oliver" ["Fjordvik"]], kid.name = "Oliver" ∧
      ∃ g ∈ [Group.mk "G1" "Fjordvik FK G2013" [Member.mk "M1" "Oliver"]],
        fuzzy_match_group g.name kid.groups = true ∧
          ∃ mem ∈ g.members, mem.id = "M1" ∧ lower mem.firstName = lower "Oliver")
    ∧ (resolve_family_members []
        ⟨.ok [Group.mk "G1" "Fjordvik FK G2013" [Member.mk "M1" "Oliver"]],
          fun _ _ => []⟩ 0 initState).1 = .ok [] :=
  ⟨resolve_family_members_invariant.1
      [Kid.mk "Oliver" ["Fjordvik"]]
      [Group.mk "G1" "Fjordvik FK G2013" [Member.mk "M1" "Oliver"]]
      "M1" "Oliver" (by decide),
   resolve_family_members_invariant.2.2
      ⟨.ok [Group.mk "G1" "Fjordvik FK G2013" [Member.mk "M1" "Oliver"]],
        fun _ _ => []⟩ 0 initState
      [Group.mk "G1" "Fjordvik FK G2013" [Member.mk "M1" "Oliver"]]
      rfl rfl⟩

end Spond

namespace Spond

/-- C2: `fuzzy_match_group` returns true iff some configured name, after
case-folding, is a substring of the case-folded remote name or vice versa; an
empty configured list never matches, and the three concrete examples behave
as stated. -/
theorem fuzzy_match_group_spec :
    (∀ (g : String) (cs : List String),
      fuzzy_match_group g cs = true ↔
        ∃ c ∈ cs, lower c <:+: lower g ∨ lower g <:+: lower c)
    ∧ fuzzy_match_group "Fjordvik FK G2013" ["Fjordvik"] = true
    ∧ fuzzy_match_group "Solvik" ["Solvik IL 2017"] = true
    ∧ fuzzy_match_group "Fjordvik FK G2013" ["Solvik IL 2017"] = false
    ∧ (∀ g : String, fuzzy_match_group g [] = false) := by
  refine ⟨fun g cs => ?_, by decide, by decide, by decide, fun g => rfl⟩
  simp [fuzzy_match_group, List.any_eq_true, containsSub_infix_iff]

/-- C9 (implicit): the empty string as a configured name matches every remote
group, and `find_group_id` with the empty query returns the first group's id
of any non-empty group list. -/
theorem empty_string_matches_everything :
    (∀ (g : String) (cs : List String), "" ∈ cs → fuzzy_match_group g cs = true)
    ∧ ∀ (g0 : Group) (rest : List Group),
        find_group_id "" (g0 :: rest) = some g0.id := by
  constructor
  · intro g cs h
    simp only [fuzzy_match_group, List.any_eq_true]
    refine ⟨"", h, ?_⟩
    have : containsSub (lower "") (lower g) = true :=
      (containsSub_infix_iff _ _).mpr (by simp [lower])
    simp [this]
  · intro g0 rest
    have hp : (containsSub (lower "") (lower g0.name) ||
        containsSub (lower g0.name) (lower "")) = true := by
      have : containsSub (lower "") (lower g0.name) = true :=
        (containsSub_infix_iff _ _).mpr (by simp [lower])
      simp [this]
    simp [find_group_id]
    exact ⟨g0, Or.inl ⟨by simpa using hp, rfl⟩, rfl⟩

/-- Witness for C9 at concrete inputs. -/
theorem empty_string_matches_everything_witness :
    fuzzy_match_group "Fjordvik FK G2013" [""] = true ∧
    find_group_id "" [⟨"G1", "Fjordvik", []⟩] = some "G1" :=
  ⟨empty_string_matches_everything.1 "Fjordvik FK G2013" [""] (by simp),
   empty_string_matches_everything.2 ⟨"G1", "Fjordvik", []⟩ []⟩

/-- C10 (implicit): the response payload maps `"accepted"` to `"true"` exactly
when `accept` is true and to `"false"` otherwise; it carries a
`"declineMessage"` key exactly when `accept` is false and the message is
non-empty (so a message supplied with `accept = true` is dropped); and
`change_response` neither reads nor writes the cache or the derived maps —
it only issues the remote call. -/
theorem change_response_spec :
    ∀ (st : ServiceState) (event_id member_id : String) (accept : Bool)
      (msg : String),
      (change_response_payload accept msg).lookup "accepted"
          = some (if accept then "true" else "false")
      ∧ ((∃ v, ("declineMessage", v) ∈ change_response_payload accept msg) ↔
          accept = false ∧ msg ≠ "")
      ∧ (∀ v, ("declineMessage", v) ∈ change_response_payload accept msg → v = msg)
      ∧ (change_response st event_id member_id accept msg).cache = st.cache
      ∧ (change_response st event_id member_id accept msg).familyMembers
          = st.familyMembers
      ∧ (change_response st event_id member_id accept msg).groupMap = st.groupMap
      ∧ (change_response st event_id member_id accept msg).responseCalls
          = st.responseCalls ++
              [(event_id, member_id, change_response_payload accept msg)] := by
  intro st event_id member_id accept msg
  refine ⟨?_, ?_, ?_, rfl, rfl, rfl, rfl⟩
  · cases accept <;> by_cases h : msg = "" <;>
      simp [change_response_payload, h, List.lookup]
  · cases accept <;> by_cases h : msg = "" <;>
      simp [change_response_payload, h]
  · intro v hv
    cases accept <;> by_cases h : msg = "" <;>
      simp only [change_response_payload, h] at hv <;> simp_all

/-! Decimal-representation facts needed to analyse the event cache key
`f"events:{days}:{group_id or 'all'}"`: `toString` on integers is injective
and never produces the separator `':'`. -/

theorem toDigitsCore_eq_digits (b : Nat) (hb : 1 < b) :
    ∀ (f n : Nat) (acc : List Char), 0 < n → n < f →
      Nat.toDigitsCore b f n acc
        = ((Nat.digits b n).map Nat.digitChar).reverse ++ acc := by
  intro f
  induction f with
  | zero => intro n acc hn hf; omega
  | succ f ih =>
    intro n acc hn hf
    simp only [Nat.toDigitsCore]
    by_cases hdiv : n / b = 0
    · rw [if_pos hdiv, Nat.digits_def' hb hn, hdiv, Nat.digits_zero]
      simp
    · have hn' : 0 < n / b := Nat.pos_of_ne_zero hdiv
      have hlt : n / b < f :=
        lt_of_lt_of_le (Nat.div_lt_self hn hb) (Nat.lt_succ_iff.mp hf)
      rw [if_neg hdiv, ih (n / b) _ hn' hlt, Nat.digits_def' hb hn]
      simp

theorem natRepr_eq_of_pos {n : Nat} (hn : 0 < n) :
    Nat.repr n = (((Nat.digits 10 n).map Nat.digitChar).reverse).asString := by
  show (Nat.toDigits 10 n).asString = _
  unfold Nat.toDigits
  rw [toDigitsCore_eq_digits 10 (by norm_num) (n + 1) n [] hn (Nat.lt_succ_self n),
    List.append_nil]

theorem digitChar_injOn :
    ∀ a, a < 10 → ∀ c, c < 10 → Nat.digitChar a = Nat.digitChar c → a = c := by
  decide

theorem digitChar_ne_colon : ∀ a, a < 10 → Nat.digitChar a ≠ ':' := by decide

theorem digitChar_ne_dash : ∀ a, a < 10 → Nat.digitChar a ≠ '-' := by decide

theorem mem_natRepr_digit {n : Nat} {c : Char} (hc : c ∈ (Nat.repr n).data) :
    ∃ d, d < 10 ∧ c = Nat.digitChar d := by
  rcases Nat.eq_zero_or_pos n with rfl | hn
  · refine ⟨0, by norm_num, ?_⟩
    have h0 : (Nat.repr 0).data = ['0'] := rfl
    rw [h0] at hc
    have hc0 : c = '0' := by simpa using hc
    rw [hc0]; decide
  · rw [natRepr_eq_of_pos hn] at hc
    have hc' : c ∈ ((Nat.digits 10 n).map Nat.digitChar).reverse := hc
    rw [List.mem_reverse] at hc'
    rcases List.mem_map.mp hc' with ⟨d, hd, rfl⟩
    exact ⟨d, Nat.digits_lt_base (by norm_num) hd, rfl⟩

theorem map_digitChar_inj :
    ∀ (l1 l2 : List Nat), (∀ x ∈ l1, x < 10) → (∀ x ∈ l2, x < 10) →
      l1.map Nat.digitChar = l2.map Nat.digitChar → l1 = l2 := by
  intro l1
  induction l1 with
  | nil => intro l2 _ _ h; cases l2 <;> simp_all
  | cons x t ih =>
    intro l2 h1 h2 h
    cases l2 with
    | nil => simp_all
    | cons y t' =>
      simp only [List.map_cons, List.cons.injEq] at h
      have hx : x = y :=
        digitChar_injOn x (h1 x (List.mem_cons_self _ _)) y
          (h2 y (List.mem_cons_self _ _)) h.1
      have ht : t = t' :=
        ih t' (fun z hz => h1 z (List.mem_cons_of_mem _ hz))
          (fun z hz => h2 z (List.mem_cons_of_mem _ hz)) h.2
      rw [hx, ht]

theorem natRepr_injective {m n : Nat} (h : Nat.repr m = Nat.repr n) : m = n := by
  rcases Nat.eq_zero_or_pos m with rfl | hm <;>
    rcases Nat.eq_zero_or_pos n with rfl | hn
  · rfl
  · exfalso
    rw [natRepr_eq_of_pos hn] at h
    have hd : (['0'] : List Char)
        = ((Nat.digits 10 n).map Nat.digitChar).reverse := congrArg String.data h
    have hd' : (Nat.digits 10 n).map Nat.digitChar = ['0'] := by
      have := congrArg List.reverse hd
      simpa using this.symm
    have : Nat.digits 10 n = [0] :=
      map_digitChar_inj _ [0]
        (fun x hx => Nat.digits_lt_base (by norm_num) hx) (by norm_num)
        (by simpa using hd')
    have hzero := Nat.ofDigits_digits 10 n
    rw [this] at hzero
    simp [Nat.ofDigits] at hzero
    omega
  · exfalso
    rw [natRepr_eq_of_pos hm] at h
    have hd : ((Nat.digits 10 m).map Nat.digitChar).reverse
        = (['0'] : List Char) := congrArg String.data h
    have hd' : (Nat.digits 10 m).map Nat.digitChar = ['0'] := by
      have := congrArg List.reverse hd
      simpa using this
    have : Nat.digits 10 m = [0] :=
      map_digitChar_inj _ [0]
        (fun x hx => Nat.digits_lt_base (by norm_num) hx) (by norm_num)
        (by simpa using hd')
    have hzero := Nat.ofDigits_digits 10 m
    rw [this] at hzero
    simp [Nat.ofDigits] at hzero
    omega
  · rw [natRepr_eq_of_pos hm, natRepr_eq_of_pos hn] at h
    have hd : ((Nat.digits 10 m).map Nat.digitChar).reverse
        = ((Nat.digits 10 n).map Nat.digitChar).reverse := congrArg String.data h
    have hd' : (Nat.digits 10 m).map Nat.digitChar
        = (Nat.digits 10 n).map Nat.digitChar := by
      have := congrArg List.reverse hd
      simpa using this
    have hdig : Nat.digits 10 m = Nat.digits 10 n :=
      map_digitChar_inj _ _
        (fun x hx => Nat.digits_lt_base (by norm_num) hx)
        (fun x hx => Nat.digits_lt_base (by norm_num) hx) hd'
    have h1 := Nat.ofDigits_digits 10 m
    rw [hdig, Nat.ofDigits_digits] at h1
    exact h1.symm

theorem toStringInt_def (d : Int) :
    toString d = match d with
      | .ofNat m => Nat.repr m
      | .negSucc m => "-" ++ Nat.repr (m + 1) := by
  cases d <;> rfl

theorem colon_not_mem_toStringInt (d : Int) : ':' ∉ (toString d).data := by
  rw [toStringInt_def d]
  cases d with
  | ofNat m =>
    intro hc
    rcases mem_natRepr_digit hc with ⟨k, hk, hck⟩
    exact digitChar_ne_colon k hk hck.symm
  | negSucc m =>
    intro hc
    have hc' : ':' ∈ ('-' :: (Nat.repr (m + 1)).data) := hc
    rcases List.mem_cons.mp hc' with h | h
    · exact absurd h (by decide)
    · rcases mem_natRepr_digit h with ⟨k, hk, hck⟩
      exact digitChar_ne_colon k hk hck.symm

theorem toStringInt_injective {d1 d2 : Int} (h : toString d1 = toString d2) :
    d1 = d2 := by
  rw [toStringInt_def d1, toStringInt_def d2] at h
  cases d1 with
  | ofNat m =>
    cases d2 with
    | ofNat n => exact congrArg Int.ofNat (natRepr_injective h)
    | negSucc n =>
      exfalso
      have hd : (Nat.repr m).data = '-' :: (Nat.repr (n + 1)).data :=
        congrArg String.data h
      have : '-' ∈ (Nat.repr m).data := by
        rw [hd]; exact List.mem_cons_self _ _
      rcases mem_natRepr_digit this with ⟨k, hk, hck⟩
      exact digitChar_ne_dash k hk hck.symm
  | negSucc m =>
    cases d2 with
    | ofNat n =>
      exfalso
      have hd : '-' :: (Nat.repr (m + 1)).data = (Nat.repr n).data :=
        congrArg String.data h
      have : '-' ∈ (Nat.repr n).data := by
        rw [← hd]; exact List.mem_cons_self _ _
      rcases mem_natRepr_digit this with ⟨k, hk, hck⟩
      exact digitChar_ne_dash k hk hck.symm
    | negSucc n =>
      have hd : '-' :: (Nat.repr (m + 1)).data = '-' :: (Nat.repr (n + 1)).data :=
        congrArg String.data h
      have hmn : Nat.repr (m + 1) = Nat.repr (n + 1) :=
        String.ext (List.cons.inj hd).2
      have hsucc := natRepr_injective hmn
      have hmn2 : m = n := by omega
      rw [hmn2]

/-- Left-cancellation for string append. -/
theorem string_append_left_cancel {s t u : String} (h : s ++ t = s ++ u) :
    t = u := by
  apply String.ext
  have hd : s.data ++ t.data = s.data ++ u.data := by
    have := congrArg String.data h
    simpa using this
  exact List.append_inj_right hd rfl

/-- Two event cache keys with the same day window and non-falsy group ids
coincide only for equal group ids. -/
theorem cacheKey_some_inj (days : Int) {g1 g2 : String} (h1 : g1 ≠ "")
    (h2 : g2 ≠ "") (h : cacheKey days (some g1) = cacheKey days (some g2)) :
    g1 = g2 := by
  have h' : ("events:" ++ toString days ++ ":" ++ (if g1 = "" then "all" else g1))
      = ("events:" ++ toString days ++ ":" ++ (if g2 = "" then "all" else g2)) := h
  rw [if_neg h1, if_neg h2] at h'
  exact string_append_left_cancel h'

/-- Splitting at a separator that occurs in neither left part is unique. -/
theorem append_colon_inj :
    ∀ (xs1 : List Char) {xs2 ys1 ys2 : List Char}, ':' ∉ xs1 → ':' ∉ xs2 →
      xs1 ++ ':' :: ys1 = xs2 ++ ':' :: ys2 → xs1 = xs2 ∧ ys1 = ys2 := by
  intro xs1
  induction xs1 with
  | nil =>
    intro xs2 ys1 ys2 _ h2 h
    cases xs2 with
    | nil => simpa using h
    | cons c t =>
      simp only [List.nil_append, List.cons_append, List.cons.injEq] at h
      exact absurd (h.1 ▸ List.mem_cons_self c t) h2
  | cons c t ih =>
    intro xs2 ys1 ys2 h1 h2 h
    cases xs2 with
    | nil =>
      simp only [List.cons_append, List.nil_append, List.cons.injEq] at h
      exact absurd (h.1 ▸ List.mem_cons_self c t) h1
    | cons c' t' =>
      simp only [List.cons_append, List.cons.injEq] at h
      have ht := ih (fun hm => h1 (List.mem_cons_of_mem _ hm))
        (fun hm => h2 (List.mem_cons_of_mem _ hm)) h.2
      exact ⟨by rw [h.1, ht.1], ht.2⟩

theorem cacheKey_normGid (d : Int) (g : Option String) :
    cacheKey d g = "events:" ++ toString d ++ ":" ++ normGid g := by
  cases g <;> rfl

/-- Event cache keys coincide exactly when the day counts are equal and the
group-id components coincide after the `or 'all'` normalization. -/
theorem cacheKey_eq_iff (d1 d2 : Int) (g1 g2 : Option String) :
    cacheKey d1 g1 = cacheKey d2 g2 ↔ d1 = d2 ∧ normGid g1 = normGid g2 := by
  constructor
  · intro h
    rw [cacheKey_normGid, cacheKey_normGid] at h
    have hdata := congrArg String.data h
    simp only [String.data_append, List.append_assoc] at hdata
    have hcons : (toString d1).data ++ ':' :: (normGid g1).data
        = (toString d2).data ++ ':' :: (normGid g2).data := by
      have := List.append_inj_right hdata rfl
      simpa using this
    have hsplit := append_colon_inj _ (colon_not_mem_toStringInt d1)
      (colon_not_mem_toStringInt d2) hcons
    exact ⟨toStringInt_injective (String.ext hsplit.1), String.ext hsplit.2⟩
  · rintro ⟨rfl, hg⟩
    rw [cacheKey_normGid, cacheKey_normGid, hg]

theorem dedupStep_spec : ∀ (es : List Event) (seen : List String) (acc : List Event),
    dedupStep seen acc es = (seenAfter seen es, acc ++ dedupBy seen es) := by
  intro es
  induction es with
  | nil => intro seen acc; simp [dedupStep, seenAfter, dedupBy]
  | cons e rest ih =>
    intro seen acc
    by_cases hmem : e.id ∈ seen
    · simp [dedupStep, seenAfter, dedupBy, hmem, ih]
    · simp [dedupStep, seenAfter, dedupBy, hmem, ih]

theorem seenAfter_append : ∀ (xs ys : List Event) (seen : List String),
    seenAfter seen (xs ++ ys) = seenAfter (seenAfter seen xs) ys := by
  intro xs
  induction xs with
  | nil => intro ys seen; rfl
  | cons x rest ih =>
    intro ys seen
    by_cases hmem : x.id ∈ seen <;> simp [seenAfter, hmem, ih]

theorem dedupBy_append : ∀ (xs ys : List Event) (seen : List String),
    dedupBy seen (xs ++ ys) = dedupBy seen xs ++ dedupBy (seenAfter seen xs) ys := by
  intro xs
  induction xs with
  | nil => intro ys seen; rfl
  | cons x rest ih =>
    intro ys seen
    by_cases hmem : x.id ∈ seen <;> simp [dedupBy, seenAfter, hmem, ih]

theorem get_events_coherent {remote : Remote} {now days : Int}
    {st : ServiceState} {gid : String} (hgid : gid ≠ "")
    (hP : EventCacheCoherent remote now days st) :
    ∃ st', get_events remote now days (some gid) st
        = (remote.events days (some gid), st')
      ∧ EventCacheCoherent remote now days st' := by
  rcases hP gid hgid with hnone | hsome
  · refine ⟨setCached { st with eventFetches := st.eventFetches + 1 } now
      (cacheKey days (some gid)) (.events (remote.events days (some gid))), ?_, ?_⟩
    · simp [get_events, getCached, hnone]
    · intro g hg
      by_cases hkey : cacheKey days (some g) = cacheKey days (some gid)
      · right
        have hgg : g = gid := cacheKey_some_inj days hg hgid hkey
        subst hgg
        simp [setCached, hkey]
      · simpa [setCached, hkey] using hP g hg
  · refine ⟨st, ?_, hP⟩
    have hfresh : (0 : Int) < EVENTS_TTL := by norm_num [EVENTS_TTL]
    simp [get_events, getCached, hsome, hfresh]

theorem aggLoop_spec {remote : Remote} {now days : Int} {groups : List Group} :
    ∀ (kgs : List String) (seen : List String) (acc : List Event)
      (st : ServiceState), EventCacheCoherent remote now days st →
      ∃ st',
        aggLoop remote now days groups kgs seen acc st
          = (seenAfter seen (kgs.flatMap fun gname =>
                match find_group_id gname groups with
                | some gid => if gid = "" then [] else remote.events days (some gid)
                | none => []),
              acc ++ dedupBy seen (kgs.flatMap fun gname =>
                match find_group_id gname groups with
                | some gid => if gid = "" then [] else remote.events days (some gid)
                | none => []),
              st')
        ∧ EventCacheCoherent remote now days st' := by
  intro kgs
  induction kgs with
  | nil =>
    intro seen acc st hP
    exact ⟨st, by simp [aggLoop, seenAfter, dedupBy], hP⟩
  | cons gname rest ih =>
    intro seen acc st hP
    cases hfind : find_group_id gname groups with
    | none =>
      rcases ih seen acc st hP with ⟨st', heq, hP'⟩
      exact ⟨st', by simp [aggLoop, hfind, heq], hP'⟩
    | some gid =>
      by_cases hgid : gid = ""
      · rcases ih seen acc st hP with ⟨st', heq, hP'⟩
        exact ⟨st', by simp [aggLoop, hfind, hgid, heq], hP'⟩
      · rcases get_events_coherent hgid hP with ⟨st1, hge, hP1⟩
        rcases ih (seenAfter seen (remote.events days (some gid)))
            (acc ++ dedupBy seen (remote.events days (some gid))) st1 hP1 with
          ⟨st', heq, hP'⟩
        refine ⟨st', ?_, hP'⟩
        simp only [aggLoop, hfind, hgid, if_false, hge, dedupStep_spec]
        rw [heq]
        simp [hfind, hgid, seenAfter_append, dedupBy_append, List.append_assoc]

theorem dedupBy_id_nodup : ∀ (es : List Event) (seen : List String),
    ((dedupBy seen es).map Event.id).Nodup
    ∧ ∀ x ∈ (dedupBy seen es).map Event.id, x ∉ seen := by
  intro es
  induction es with
  | nil => intro seen; simp [dedupBy]
  | cons e rest ih =>
    intro seen
    by_cases hmem : e.id ∈ seen
    · simpa [dedupBy, hmem] using ih seen
    · rcases ih (e.id :: seen) with ⟨hnd, hout⟩
      constructor
      · simp only [dedupBy, hmem, if_false, List.map_cons, List.nodup_cons]
        exact ⟨fun hx => (hout e.id hx) (List.mem_cons_self _ _), hnd⟩
      · intro x hx
        simp only [dedupBy, hmem, if_false, List.map_cons, List.mem_cons] at hx
        rcases hx with rfl | hx
        · exact hmem
        · exact fun hxs => (hout x hx) (List.mem_cons_of_mem _ hxs)

/-- C5: from a fresh service, the kid path of `handle_get_upcoming_events`
computes exactly the spec's cross-group union: each configured group name is
resolved through `find_group_id` (unresolvable and falsy ids silently
skipped), the per-group events are accumulated deduplicated by event id with
the first occurrence winning in configured order, and the result is sorted
ascending by the lexicographic order of the start-timestamp strings; the
returned list is sorted and carries pairwise-distinct event ids. -/
theorem aggregateKidEvents_spec :
    ∀ (remote : Remote) (now days : Int) (kid_group_names : List String)
      (groups : List Group),
      (aggregateKidEvents remote now days kid_group_names groups initState).1
          = specKidUnion remote days kid_group_names groups
      ∧ List.Sorted evLe
          (aggregateKidEvents remote now days kid_group_names groups initState).1
      ∧ ((aggregateKidEvents remote now days kid_group_names groups
            initState).1.map Event.id).Nodup := by
  intro remote now days kid_group_names groups
  have hP : EventCacheCoherent remote now days initState := fun _ _ => Or.inl rfl
  rcases @aggLoop_spec remote now days groups kid_group_names [] [] initState hP with
    ⟨st', heq, _⟩
  have hval :
      (aggregateKidEvents remote now days kid_group_names groups initState).1
        = specKidUnion remote days kid_group_names groups := by
    simp only [aggregateKidEvents, heq, specKidUnion, List.nil_append]
  refine ⟨hval, ?_, ?_⟩
  · rw [hval]
    exact List.sorted_insertionSort evLe _
  · rw [hval]
    have hperm : List.Perm (specKidUnion remote days kid_group_names groups)
        (dedupBy [] (kid_group_names.flatMap fun gname =>
          match find_group_id gname groups with
          | some gid => if gid = "" then [] else remote.events days (some gid)
          | none => [])) := List.perm_insertionSort evLe _
    exact ((hperm.map Event.id).nodup_iff).mpr (dedupBy_id_nodup _ []).1

/-- Counterexample to C6 as stated: the parameters `group_id = some "all"`
and `group_id = none` differ, yet their cache keys collide, so the second
call is served the first call's cached events (one remote fetch, one entry)
even though the remote answers differ. -/
theorem cache_key_isolation_counterexample :
    (some "all" : Option String) ≠ none
    ∧ cacheKey 7 (some "all") = cacheKey 7 none
    ∧ (get_events
          ⟨.ok [], fun _ g => if g = some "all" then [⟨"E1", "T1"⟩] else []⟩ 0 7
          none
          (get_events
            ⟨.ok [], fun _ g => if g = some "all" then [⟨"E1", "T1"⟩] else []⟩ 0
            7 (some "all") initState).2).1
        = [⟨"E1", "T1"⟩]
    ∧ (⟨.ok [], fun _ g => if g = some "all" then [⟨"E1", "T1"⟩] else []⟩ :
          Remote).events 7 none = []
    ∧ (get_events
          ⟨.ok [], fun _ g => if g = some "all" then [⟨"E1", "T1"⟩] else []⟩ 0 7
          none
          (get_events
            ⟨.ok [], fun _ g => if g = some "all" then [⟨"E1", "T1"⟩] else []⟩ 0
            7 (some "all") initState).2).2.eventFetches = 1 := by
  refine ⟨by decide, rfl, ?_, rfl, ?_⟩ <;> rfl

/-- C6 (amended): the event cache key incorporates the day count and the
group filter, but collisions are governed by the `group_id or 'all'`
normalization — keys coincide exactly when the day counts are equal and the
normalized group-id components are equal (`none`, `""` and the literal
`"all"` share one key).  Distinct day counts never collide: fetching with
`days = 7` and then `days = 14` issues two independent remote calls and
produces two independent cache entries. -/
theorem cache_key_isolation :
    (∀ (d1 d2 : Int) (g1 g2 : Option String),
      cacheKey d1 g1 = cacheKey d2 g2 ↔ d1 = d2 ∧ normGid g1 = normGid g2)
    ∧ (∀ (remote : Remote) (now : Int),
        (get_events remote now 14 none
            (get_events remote now 7 none initState).2).2.eventFetches = 2
        ∧ (get_events remote now 14 none
              (get_events remote now 7 none initState).2).2.cache
              (cacheKey 7 none)
            = some (.events (remote.events 7 none), now)
        ∧ (get_events remote now 14 none
              (get_events remote now 7 none initState).2).2.cache
              (cacheKey 14 none)
            = some (.events (remote.events 14 none), now)
        ∧ cacheKey 7 none ≠ cacheKey 14 none) := by
  have hne : cacheKey (7 : Int) none ≠ cacheKey 14 none := by
    intro h
    have h2 := ((cacheKey_eq_iff 7 14 none none).mp h).1
    norm_num at h2
  refine ⟨cacheKey_eq_iff, fun remote now => ?_⟩
  have h1 : get_events remote now 7 none initState
      = (remote.events 7 none,
          setCached { initState with eventFetches := 1 } now (cacheKey 7 none)
            (.events (remote.events 7 none))) := by
    simp [get_events, getCached, initState]
  have h1' := congrArg Prod.snd h1
  simp only at h1'
  rw [h1']
  refine ⟨?_, ?_, ?_, hne⟩ <;>
    simp [get_events, getCached, setCached, initState, hne, Ne.symm hne]

/-- Witness for C6 (amended): the normalization makes `some ""` and `none`
share one key, and concrete keys for days 7 and 14 are distinct. -/
theorem cache_key_isolation_witness :
    cacheKey 7 (some "") = cacheKey 7 none
    ∧ (get_events ⟨.ok [], fun _ _ => []⟩ 3 14 none
          (get_events ⟨.ok [], fun _ _ => []⟩ 3 7 none initState).2).2.eventFetches
        = 2 :=
  ⟨(cache_key_isolation.1 7 7 (some "") none).mpr ⟨rfl, rfl⟩,
   (cache_key_isolation.2 ⟨.ok [], fun _ _ => []⟩ 3).1⟩

/-- Witness for C10: declining with a message carries it, accepting with a
message drops it. -/
theorem change_response_spec_witness :
    (change_response_payload false "kan ikke").lookup "accepted" = some "false"
    ∧ (∃ v, ("declineMessage", v) ∈ change_response_payload false "kan ikke")
    ∧ ¬ ∃ v, ("declineMessage", v) ∈ change_response_payload true "kan ikke" :=
  ⟨(change_response_spec initState "E1" "M1" false "kan ikke").1,
   ((change_response_spec initState "E1" "M1" false "kan ikke").2.1).mpr
      ⟨rfl, by decide⟩,
   fun hex =>
     by simpa using
       ((change_response_spec initState "E1" "M1" true "kan ikke").2.1).mp hex⟩

/-- C3: from a fresh service, two successive calls to
`resolve_family_members` issue exactly one group-list fetch: the second call
— at an arbitrary later instant `t2`, so no TTL ever invalidates the map —
returns the first call's map and leaves the state untouched; only an explicit
`clear_cache` resets the map to unbuilt. -/
theorem resolve_family_members_idempotent :
    ∀ (kids : List Kid) (remote : Remote) (gs : List Group) (t1 t2 : Int),
      remote.groupsResult = .ok gs →
      (resolve_family_members kids remote t1 initState).2.groupFetches = 1
      ∧ resolve_family_members kids remote t2
            (resolve_family_members kids remote t1 initState).2
          = ((resolve_family_members kids remote t1 initState).1,
              (resolve_family_members kids remote t1 initState).2)
      ∧ (clear_cache
            (resolve_family_members kids remote t1 initState).2).familyMembers
          = none := by
  intro kids remote gs t1 t2 hok
  have h1 : resolve_family_members kids remote t1 initState
      = (.ok (buildFamily kids gs),
          { setCached { initState with groupFetches := 1 } t1 "groups"
              (.groups gs) with
            familyMembers := some (buildFamily kids gs) }) := by
    simp [resolve_family_members, get_groups, getCached, initState, hok]
  rw [h1]
  refine ⟨rfl, ?_, rfl⟩
  simp [resolve_family_members]

/-- Witness for C3 at a concrete configuration and concrete instants (the
second call 100000 seconds later, far past every TTL). -/
theorem resolve_family_members_idempotent_witness :
    (resolve_family_members [Kid.mk "Oliver" ["Fjordvik"]]
        ⟨.ok [Group.mk "G1" "Fjordvik" [Member.mk "M1" "Oliver"]], fun _ _ => []⟩
        0 initState).2.groupFetches = 1
    ∧ resolve_family_members [Kid.mk "Oliver" ["Fjordvik"]]
          ⟨.ok [Group.mk "G1" "Fjordvik" [Member.mk "M1" "Oliver"]], fun _ _ => []⟩
          100000
          (resolve_family_members [Kid.mk "Oliver" ["Fjordvik"]]
            ⟨.ok [Group.mk "G1" "Fjordvik" [Member.mk "M1" "Oliver"]],
              fun _ _ => []⟩ 0 initState).2
        = ((resolve_family_members [Kid.mk "Oliver" ["Fjordvik"]]
              ⟨.ok [Group.mk "G1" "Fjordvik" [Member.mk "M1" "Oliver"]],
                fun _ _ => []⟩ 0 initState).1,
            (resolve_family_members [Kid.mk "Oliver" ["Fjordvik"]]
              ⟨.ok [Group.mk "G1" "Fjordvik" [Member.mk "M1" "Oliver"]],
                fun _ _ => []⟩ 0 initState).2) :=
  ⟨(resolve_family_members_idempotent [Kid.mk "Oliver" ["Fjordvik"]]
      ⟨.ok [Group.mk "G1" "Fjordvik" [Member.mk "M1" "Oliver"]], fun _ _ => []⟩
      [Group.mk "G1" "Fjordvik" [Member.mk "M1" "Oliver"]] 0 100000 rfl).1,
   (resolve_family_members_idempotent [Kid.mk "Oliver" ["Fjordvik"]]
      ⟨.ok [Group.mk "G1" "Fjordvik" [Member.mk "M1" "Oliver"]], fun _ _ => []⟩
      [Group.mk "G1" "Fjordvik" [Member.mk "M1" "Oliver"]] 0 100000 rfl).2.1⟩

/-- C7: the Family Resolution Map and Group Name Index form two-state build
machines.  `clear_cache` drops every cache entry and resets both maps to
unbuilt; a failing group fetch during a build returns the error with the
state completely unchanged (no partial map is stored); a successful build
stores the completed map. -/
theorem build_state_machine :
    (∀ st : ServiceState, (clear_cache st).cache = (fun _ => none)
      ∧ (clear_cache st).familyMembers = none
      ∧ (clear_cache st).groupMap = none)
    ∧ (∀ (kids : List Kid) (remote : Remote) (now : Int) (st : ServiceState)
        (e : String), remote.groupsResult = .error e →
        st.familyMembers = none → st.cache "groups" = none →
        resolve_family_members kids remote now st = (.error e, st))
    ∧ (∀ (remote : Remote) (now : Int) (st : ServiceState) (e : String),
        remote.groupsResult = .error e →
        st.groupMap = none → st.cache "groups" = none →
        get_group_map remote now st = (.error e, st))
    ∧ (∀ (kids : List Kid) (remote : Remote) (now : Int) (st : ServiceState)
        (gs : List Group), remote.groupsResult = .ok gs →
        st.familyMembers = none → st.cache "groups" = none →
        (resolve_family_members kids remote now st).2.familyMembers
          = some (buildFamily kids gs))
    ∧ (∀ (remote : Remote) (now : Int) (st : ServiceState) (gs : List Group),
        remote.groupsResult = .ok gs →
        st.groupMap = none → st.cache "groups" = none →
        (get_group_map remote now st).2.groupMap
          = some (gs.map fun g => (g.id, g.name))) := by
  refine ⟨fun st => ⟨rfl, rfl, rfl⟩, ?_, ?_, ?_, ?_⟩
  · intro kids remote now st e herr hfam hcache
    simp [resolve_family_members, hfam, get_groups, getCached, hcache, herr]
  · intro remote now st e herr hmap hcache
    simp [get_group_map, hmap, get_groups, getCached, hcache, herr]
  · intro kids remote now st gs hok hfam hcache
    simp [resolve_family_members, hfam, get_groups, getCached, hcache, hok]
  · intro remote now st gs hok hmap hcache
    simp [get_group_map, hmap, get_groups, getCached, hcache, hok]

/-- Witness for C7: a failing remote leaves a fresh service exactly as it
was, and a succeeding one stores the built maps. -/
theorem build_state_machine_witness :
    resolve_family_members [] ⟨.error "boom", fun _ _ => []⟩ 0 initState
        = (.error "boom", initState)
    ∧ get_group_map ⟨.error "boom", fun _ _ => []⟩ 0 initState
        = (.error "boom", initState)
    ∧ (resolve_family_members [] ⟨.ok [Group.mk "G1" "A" []], fun _ _ => []⟩ 0
          initState).2.familyMembers = some (buildFamily [] [Group.mk "G1" "A" []])
    ∧ (get_group_map ⟨.ok [Group.mk "G1" "A" []], fun _ _ => []⟩ 0
          initState).2.groupMap = some [("G1", "A")] :=
  ⟨build_state_machine.2.1 [] ⟨.error "boom", fun _ _ => []⟩ 0 initState "boom"
      rfl rfl rfl,
   build_state_machine.2.2.1 ⟨.error "boom", fun _ _ => []⟩ 0 initState "boom"
      rfl rfl rfl,
   build_state_machine.2.2.2.1 [] ⟨.ok [Group.mk "G1" "A" []], fun _ _ => []⟩ 0
      initState [Group.mk "G1" "A" []] rfl rfl rfl,
   build_state_machine.2.2.2.2 ⟨.ok [Group.mk "G1" "A" []], fun _ _ => []⟩ 0
      initState [Group.mk "G1" "A" []] rfl rfl rfl⟩

theorem get_groups_responseCalls (remote : Remote) (now : Int)
    (st : ServiceState) :
    (get_groups remote now st).2.responseCalls = st.responseCalls := by
  unfold get_groups
  split
  · rfl
  · split
    · rfl
    · rfl

theorem resolve_responseCalls (kids : List Kid) (remote : Remote) (now : Int)
    (st : ServiceState) :
    (resolve_family_members kids remote now st).2.responseCalls
      = st.responseCalls := by
  cases hf : st.familyMembers with
  | some fam => simp [resolve_family_members, hf]
  | none =>
    rcases hgg : get_groups remote now st with ⟨r, st'⟩
    have h2 : st'.responseCalls = st.responseCalls := by
      have h := get_groups_responseCalls remote now st
      rw [hgg] at h; exact h
    cases r with
    | error e => simp [resolve_family_members, hf, hgg, h2]
    | ok gs => simp [resolve_family_members, hf, hgg, h2]

/-- C8: unresolvable references are results, not exceptions.  An unknown kid
to the upcoming-events handler yields the descriptive `"Ukjent barn: …"`
string with the state untouched; an unknown group name yields
`"Fant ingen gruppe som matcher …"`; `find_member_id` represents absence as
`none` inside a successful result; and an unknown kid to the respond handler
yields `"Fant ikke … i noen Spond-gruppe."` without submitting any
response. -/
theorem not_found_is_result :
    (∀ (fmt : Event → List (String × String) → String) (kids : List Kid)
      (remote : Remote) (now days : Int) (group_name kid_name : String)
      (st : ServiceState), kid_name ≠ "" →
      get_kid_group_names kids kid_name = [] →
      handle_get_upcoming_events fmt kids remote now days group_name kid_name st
        = (.ok ("Ukjent barn: " ++ kid_name), st))
    ∧ (∀ (fmt : Event → List (String × String) → String) (kids : List Kid)
        (remote : Remote) (now days : Int) (group_name : String)
        (st : ServiceState) (gs : List Group), group_name ≠ "" →
        (get_groups remote now st).1 = .ok gs →
        find_group_id group_name gs = none →
        handle_get_upcoming_events fmt kids remote now days group_name "" st
          = (.ok ("Fant ingen gruppe som matcher '" ++ group_name ++ "'"),
              (get_groups remote now st).2))
    ∧ (∀ (kids : List Kid) (remote : Remote) (now : Int) (st : ServiceState)
        (kid_name : String) (fam : List (String × String)),
        (resolve_family_members kids remote now st).1 = .ok fam →
        (∀ p ∈ fam, ¬ lower p.2 = lower kid_name) →
        (find_member_id kids remote now st kid_name).1 = .ok none)
    ∧ (∀ (kids : List Kid) (remote : Remote) (now : Int)
        (event_id kid_name : String) (accept : Bool) (msg : String)
        (st : ServiceState) (fam : List (String × String)),
        (resolve_family_members kids remote now st).1 = .ok fam →
        (∀ p ∈ fam, ¬ lower p.2 = lower kid_name) →
        handle_respond_to_event kids remote now event_id kid_name accept msg st
          = (.ok ("Fant ikke " ++ kid_name ++ " i noen Spond-gruppe."),
              (resolve_family_members kids remote now st).2)
        ∧ (handle_respond_to_event kids remote now event_id kid_name accept msg
            st).2.responseCalls = st.responseCalls) := by
  have hfind : ∀ (kids : List Kid) (remote : Remote) (now : Int)
      (st : ServiceState) (kid_name : String) (fam : List (String × String)),
      (resolve_family_members kids remote now st).1 = .ok fam →
      (∀ p ∈ fam, ¬ lower p.2 = lower kid_name) →
      find_member_id kids remote now st kid_name
        = (.ok none, (resolve_family_members kids remote now st).2) := by
    intro kids remote now st kid_name fam hok hmiss
    rcases hr : resolve_family_members kids remote now st with ⟨r, st'⟩
    rw [hr] at hok
    simp only at hok
    subst hok
    have hnone : fam.find? (fun p => decide (lower p.2 = lower kid_name)) = none :=
      List.find?_eq_none.mpr fun p hp => by simpa using hmiss p hp
    simp [find_member_id, hr, hnone]
  refine ⟨?_, ?_, ?_, ?_⟩
  · intro fmt kids remote now days group_name kid_name st hne hkgn
    simp [handle_get_upcoming_events, hne, hkgn]
  · intro fmt kids remote now days group_name st gs hne hok hfindg
    rcases hgg : get_groups remote now st with ⟨r, st'⟩
    rw [hgg] at hok
    simp only at hok
    subst hok
    simp [handle_get_upcoming_events, hne, hgg, hfindg]
  · intro kids remote now st kid_name fam hok hmiss
    rw [hfind kids remote now st kid_name fam hok hmiss]
  · intro kids remote now event_id kid_name accept msg st fam hok hmiss
    have h := hfind kids remote now st kid_name fam hok hmiss
    constructor
    · simp [handle_respond_to_event, h]
    · simp [handle_respond_to_event, h, resolve_responseCalls]

/-- Witness for C8: with an empty configuration, asking for kid "Nora" gives
the two not-found strings, and `find_member_id` answers `none`. -/
theorem not_found_is_result_witness :
    handle_get_upcoming_events (fun _ _ => "") []
        ⟨.ok [], fun _ _ => []⟩ 0 7 "" "Nora" initState
      = (.ok "Ukjent barn: Nora", initState)
    ∧ (find_member_id [] ⟨.ok [], fun _ _ => []⟩ 0 initState "Nora").1 = .ok none
    ∧ handle_respond_to_event [] ⟨.ok [], fun _ _ => []⟩ 0 "E1" "Nora" true ""
          initState
        = (.ok "Fant ikke Nora i noen Spond-gruppe.",
            (resolve_family_members [] ⟨.ok [], fun _ _ => []⟩ 0 initState).2) :=
  ⟨not_found_is_result.1 (fun _ _ => "") [] ⟨.ok [], fun _ _ => []⟩ 0 7 ""
      "Nora" initState (by decide) rfl,
   not_found_is_result.2.2.1 [] ⟨.ok [], fun _ _ => []⟩ 0 initState "Nora" []
      rfl (by simp),
   (not_found_is_result.2.2.2 [] ⟨.ok [], fun _ _ => []⟩ 0 "E1" "Nora" true ""
      initState [] rfl (by simp)).1⟩

/-- C4: a cached read returns the stored value exactly when the elapsed
monotonic time since insertion is strictly below the TTL, otherwise behaves
as if absent; the read mutates nothing (stale entries are not evicted), and
`set` unconditionally overwrites the entry with the current instant, leaving
other keys alone. -/
theorem cache_get_set_spec :
    ∀ (st : ServiceState) (now : Int) (key : String) (ttl : Int),
      (∀ v ts, st.cache key = some (v, ts) →
        ((getCached st now key ttl = some v ↔ now - ts < ttl)
          ∧ (¬ now - ts < ttl → getCached st now key ttl = none)))
      ∧ (st.cache key = none → getCached st now key ttl = none)
      ∧ (getCachedM st now key ttl).2 = st
      ∧ (∀ data, (setCached st now key data).cache key = some (data, now))
      ∧ (∀ data k, k ≠ key →
          (setCached st now key data).cache k = st.cache k) := by
  intro st now key ttl
  refine ⟨fun v ts h => ⟨?_, fun hst => ?_⟩, fun h => ?_, rfl, fun data => ?_,
    fun data k hk => ?_⟩
  · by_cases hfresh : now - ts < ttl <;> simp [getCached, h, hfresh]
  · simp [getCached, h, hst]
  · simp [getCached, h]
  · simp [setCached]
  · simp [setCached, hk]

/-- Witness for C4 at a concrete state: a key stored at instant 0 is readable
at instant 5 with TTL 3600, a missing key reads as absent, and overwrite
stamps the new instant. -/
theorem cache_get_set_spec_witness :
    getCached
        { initState with
          cache := fun k => if k = "groups" then some (.groups [], 0) else none }
        5 "groups" 3600 = some (.groups [])
    ∧ getCached initState 5 "events:7:all" 300 = none
    ∧ (setCached initState 5 "groups" (.groups [])).cache "groups"
        = some (.groups [], 5) := by
  refine ⟨((cache_get_set_spec
      { initState with
        cache := fun k => if k = "groups" then some (.groups [], 0) else none }
      5 "groups" 3600).1 (.groups []) 0 rfl).1.mpr (by norm_num),
    (cache_get_set_spec initState 5 "events:7:all" 300).2.1 rfl,
    (cache_get_set_spec initState 5 "groups" 300).2.2.2.1 (.groups [])⟩

end Spond
